import Mathlib

/-
Verification of the argument-classification engine of cli.h.

The source is a single-header C library.  Its core is `cli_parse`, a single
forward pass over the argument vector that classifies each token after the
execution path into one of three lists (`args`, `cmd_options`,
`program_options`), plus a growable-container layer that exists in two
compile-time configurations: an owned heap array with doubling growth
(`cli_da_init` / `cli_da_append`, the default), and a borrowed bump arena
(`CLI_NOHEAP`, `cli_parse_noheap`).

This file embeds the three relevant configurations of that code:

* a value-level model of the classifier (`cliLoop`, `cli_parse`), which is the
  token-classification behaviour common to both storage modes when storage
  operations succeed.  Each list is a pair of the `unsigned short` `length`
  field of `struct CliArray` (updated mod 2 ^ 16, exactly the value the
  grammar checks at cli.h lines 404 and 418 read) and the sequence of tokens
  appended so far (the arena region of the list in the CLI_NOHEAP build; the
  heap buffer coincides with it for fewer than 2 ^ 16 appends).  The C
  statement `cli_da_append(list, t)` stores `t` and does `length++`, which is
  `cliPush` on the value level;
* the owned-heap configuration (`cli_da_append_h`, `heapLoop`,
  `cli_parse_heap`), which additionally tracks the `unsigned short`
  length/capacity fields (arithmetic mod 2 ^ 16), the buffer contents across
  `CLI_REALLOC`, and an allocation oracle deciding which heap allocation
  calls succeed; `CLI_ASSERT(0)` on reallocation failure is modelled as a
  distinct outcome (`HeapRes.abort`) because `assert` terminates the process
  instead of returning an error tier;
* the borrowed-arena configuration (`cli_da_append_n`, `noheapLoop`,
  `cli_parse_noheap`), which tracks the shared bump cursor over the
  caller-supplied `stack` buffer.

C strings have no interior NUL character; `arg[i]` reads the terminating NUL
once `i` reaches the length of the token.  A token is therefore a list of
characters, and indexing (`cidx`) pads with the NUL character, exactly like
reading a C string within its allocation.
-/

/-- NUL, the C string terminator. -/
def nulChar : Char := Char.ofNat 0

/-- The option marker character. -/
def dashChar : Char := '-'

/-- A command-line token: the characters of one `argv` element (no interior
NUL, per C string semantics). -/
abbrev Tok := List Char

/-- The two-character separator token `--`. -/
def sepTok : Tok := [dashChar, dashChar]

/-- C-string indexing: `cidx t i` is `t[i]` for a NUL-terminated string whose
payload is `t`; positions at or beyond the length read the terminator. -/
def cidx (t : Tok) (i : Nat) : Char := t.getD i nulChar

/-- One output list of the classifier at the value level.  `length` is the
`unsigned short` length field of `struct CliArray` (cli.h lines 128 and
140): it wraps mod 2 ^ 16, and it is the value the grammar checks of
`cli_parse` read.  `toks` is the sequence of tokens appended to the list so
far, in order: in the CLI_NOHEAP build this is the arena region of the list
(the bump cursor stores every appended token, whatever `length` says), and
in the heap build it coincides with the buffer while fewer than 2 ^ 16
tokens have been appended. -/
structure CliList where
  length : Nat
  toks : List Tok
deriving DecidableEq

/-- One `cli_da_append` on the value level: the token is stored and the
16-bit `length` field is incremented, wrapping at 2 ^ 16. -/
def cliPush (l : CliList) (t : Tok) : CliList :=
  { length := (l.length + 1) % 65536, toks := l.toks ++ [t] }

/-- The list a caller reads back from one `struct CliArray`: the `length`
field many elements starting at `data`.  Below the 16-bit wrap this is all
of `toks`; after a wrap it is a strict prefix. -/
def cliView (l : CliList) : List Tok := l.toks.take l.length

/-- The parse aggregate `struct Cli` at the value level: the execution path
plus the three output lists, each in capture order. -/
structure Cli where
  execfile : Tok
  args : CliList
  cmd_options : CliList
  program_options : CliList
deriving DecidableEq

/-- The two grammar violations of the classifier, with the context tokens the
source passes to `cli_printf_error` (both return the `CliErrorUser` tier). -/
inductive CliErr where
  /-- the separator `--` seen while the 16-bit `args.length` field is
  non-zero; carries the offending token and `args.data[args.length - 1]`
  (the last recorded positional, below the wrap). -/
  | doubleDashAfterPositional (offending lastPositional : Tok)
  /-- a positional token seen while the 16-bit `cmd_options.length` field is
  non-zero; carries the offending token. -/
  | positionalAfterCmdOption (offending : Tok)
deriving DecidableEq

/-- Result of the classification pass: the `CliErrorOk` tier with the final
aggregate, or the `CliErrorUser` tier with the aggregate in the partial state
it had when the pass stopped (the C code returns leaving `*cli` as-is). -/
inductive ParseRes where
  | ok (cli : Cli)
  | userError (e : CliErr) (cli : Cli)
deriving DecidableEq

/-- The `while (argc)` loop of `cli_parse`: one token at a time, with the
`is_cmd_option` flag and the current aggregate.  Mirrors lines 397-429 of
cli.h: `arg[0] == '-'` selects the option side; `arg[1] == '-'` together
with a NUL at `arg[2]` recognises the separator; otherwise the token goes to
the destination list chosen by `is_cmd_option`; a non-dash token is
positional.  The two grammar checks read the wrapping 16-bit `length`
fields, exactly as `cli->args.length > 0` (line 404) and
`cli->cmd_options.length > 0` (line 418) do, and the double-dash diagnostic
reads `args.data[args.length - 1]`. -/
def cliLoop : List Tok → Bool → Cli → ParseRes
  | [], _, cli => .ok cli
  | arg :: rest, is_cmd_option, cli =>
    if cidx arg 0 = dashChar then
      if cidx arg 1 = dashChar ∧ cidx arg 2 = nulChar then
        if cli.args.length > 0 then
          .userError
            (.doubleDashAfterPositional arg (cli.args.toks.getD (cli.args.length - 1) [])) cli
        else
          cliLoop rest true cli
      else
        if is_cmd_option then
          cliLoop rest is_cmd_option { cli with cmd_options := cliPush cli.cmd_options arg }
        else
          cliLoop rest is_cmd_option
            { cli with program_options := cliPush cli.program_options arg }
    else
      if cli.cmd_options.length > 0 then
        .userError (.positionalAfterCmdOption arg) cli
      else
        cliLoop rest true { cli with args := cliPush cli.args arg }

/-- Definition of `cli_parse` at the value level.  `cli_pop_argv` asserts `argc != 0`, so the
empty vector has no defined result (`none`).  The first token becomes
`execfile`; with no further tokens the C code zeroes the aggregate and
returns `CliErrorOk`; otherwise the three lists start empty and the loop
runs over the remaining tokens with `is_cmd_option = false`. -/
def cli_parse : List Tok → Option ParseRes
  | [] => none
  | execfile :: rest =>
    some (if rest.length > 0 then
        cliLoop rest false
          { execfile := execfile, args := ⟨0, []⟩, cmd_options := ⟨0, []⟩,
            program_options := ⟨0, []⟩ }
      else
        .ok { execfile := execfile, args := ⟨0, []⟩, cmd_options := ⟨0, []⟩,
              program_options := ⟨0, []⟩ })

/-- Ghost companion of `cliLoop`: runs the same branches but returns the flag
and aggregate reached after consuming all given tokens, or `none` if a
grammar violation occurs.  Used to speak about the intermediate state of the
pass at the moment an offending token is reached. -/
def cliLoopSt : List Tok → Bool → Cli → Option (Bool × Cli)
  | [], is_cmd_option, cli => some (is_cmd_option, cli)
  | arg :: rest, is_cmd_option, cli =>
    if cidx arg 0 = dashChar then
      if cidx arg 1 = dashChar ∧ cidx arg 2 = nulChar then
        if cli.args.length > 0 then
          none
        else
          cliLoopSt rest true cli
      else
        if is_cmd_option then
          cliLoopSt rest is_cmd_option { cli with cmd_options := cliPush cli.cmd_options arg }
        else
          cliLoopSt rest is_cmd_option
            { cli with program_options := cliPush cli.program_options arg }
    else
      if cli.cmd_options.length > 0 then
        none
      else
        cliLoopSt rest true { cli with args := cliPush cli.args arg }

/-
The owned-heap configuration.  `struct CliArray` holds `unsigned short
length`, `unsigned short capacity` and a heap buffer `data`; `cli_da_init`
sets `capacity = CLI_DEFAULT_ARR_CAP`, `length = 0` and mallocs the buffer;
`cli_da_append` does `++length`, doubles `capacity` and reallocates on
overflow, and writes `data[length - 1] = item`.  The `unsigned short` fields
wrap mod 2 ^ 16.  `data` is modelled as the list of buffer cells written so
far (`CLI_REALLOC` keeps the first `new size` bytes of the old block); the
ghost fields `reallocs` and `oob` record the number of successful
reallocations and whether any write landed outside the allocated buffer
(undefined behaviour in C).  Heap allocation is an oracle `alloc : Nat →
Bool` telling whether the n-th allocation call (malloc or realloc) of the
parse returns non-NULL.
-/

/-- Value of `CLI_DEFAULT_ARR_CAP`, the initial capacity of an owned array. -/
def CLI_DEFAULT_ARR_CAP : Nat := 5

/-- Layout of `struct CliArray` in the owned configuration, plus the two ghost fields
`reallocs` and `oob` (they influence nothing). -/
structure CliArrayH where
  length : Nat
  capacity : Nat
  data : List Tok
  reallocs : Nat
  oob : Bool
deriving DecidableEq

/-- Definition of `cli_da_init` in the owned configuration, with the malloc already known to
have succeeded (the failure case is handled at the call sites in
`cli_parse_heap`, where the C code checks `data == NULL`): capacity `c0`,
length `0`, empty buffer. -/
def cliDaInitH (c0 : Nat) : CliArrayH :=
  { length := 0, capacity := c0, data := [], reallocs := 0, oob := false }

/-- A write `data[i] = t` into a buffer of `cap` cells whose first
`data.length` cells have been written.  Writing the next unwritten cell
extends the list, rewriting an earlier cell updates it; an index at or past
`cap` is out of bounds (the C code would write outside the allocation), which
sets the flag and is modelled as leaving the tracked cells unchanged.  In
every run of this code the index is either the next unwritten cell or out of
bounds. -/
def bufWrite (cap : Nat) (data : List Tok) (i : Nat) (t : Tok) : List Tok × Bool :=
  if i < cap then
    (if i < data.length then data.set i t else data ++ [t], false)
  else
    (data, true)

/-- Definition of `cli_da_append` in the owned configuration (cli.h lines 352-366):
`++length` (an `unsigned short`); if the new length exceeds `capacity`,
`capacity *= 2` (also `unsigned short`) and the buffer is reallocated — a
failed `CLI_REALLOC` hits `CLI_ASSERT(0)`, which never returns (`none`);
finally `data[length - 1] = item`.  `k` is the index of the next allocation
call for the oracle; it advances only when `CLI_REALLOC` is called. -/
def cli_da_append_h (alloc : Nat → Bool) (a : CliArrayH) (k : Nat) (t : Tok) :
    Option (CliArrayH × Nat) :=
  let len := (a.length + 1) % 65536
  if len > a.capacity then
    let cap := (a.capacity * 2) % 65536
    if alloc k then
      let d := a.data.take cap
      let w := bufWrite cap d (len - 1) t
      some ({ length := len, capacity := cap, data := w.1, reallocs := a.reallocs + 1,
              oob := a.oob || w.2 }, k + 1)
    else
      none
  else
    let w := bufWrite a.capacity a.data (len - 1) t
    some ({ a with length := len, data := w.1, oob := a.oob || w.2 }, k)

/-- Layout of `struct Cli` in the owned configuration. -/
structure CliHeap where
  execfile : Tok
  args : CliArrayH
  cmd_options : CliArrayH
  program_options : CliArrayH
deriving DecidableEq

/-- Outcome of `cli_parse` in the owned configuration: the three returned
tiers of `enum CliError` with the aggregate as the caller sees it, plus
`abort` for `CLI_ASSERT(0)` firing inside `cli_da_append` (the process
terminates; nothing is returned). -/
inductive HeapRes where
  | ok (cli : CliHeap)
  | userError (e : CliErr) (cli : CliHeap)
  | fatal (cli : CliHeap)
  | abort
deriving DecidableEq

/-- The aggregate visible to the caller for each returning outcome. -/
def heapResCli : HeapRes → Option CliHeap
  | .ok c => some c
  | .userError _ c => some c
  | .fatal c => some c
  | .abort => none

/-- Whether an outcome is the `CliErrorFatal` tier. -/
def isFatalH : HeapRes → Bool
  | .fatal _ => true
  | _ => false

/-- Whether a (possibly undefined) `cli_parse` outcome is `CliErrorFatal`. -/
def resIsFatal : Option HeapRes → Bool
  | some r => isFatalH r
  | none => false

/-- The classification loop in the owned configuration: the same branches as
`cliLoop`, with `cli_da_append` threaded through the allocation oracle; a
`none` from an append is the assertion abort.  The double-dash diagnostic
reads `args.data[args.length - 1]`. -/
def heapLoop (alloc : Nat → Bool) : List Tok → Bool → Nat → CliHeap → HeapRes
  | [], _, _, cli => .ok cli
  | arg :: rest, is_cmd_option, k, cli =>
    if cidx arg 0 = dashChar then
      if cidx arg 1 = dashChar ∧ cidx arg 2 = nulChar then
        if cli.args.length > 0 then
          .userError
            (.doubleDashAfterPositional arg (cli.args.data.getD (cli.args.length - 1) [])) cli
        else
          heapLoop alloc rest true k cli
      else
        if is_cmd_option then
          match cli_da_append_h alloc cli.cmd_options k arg with
          | none => .abort
          | some (a, k2) => heapLoop alloc rest is_cmd_option k2 { cli with cmd_options := a }
        else
          match cli_da_append_h alloc cli.program_options k arg with
          | none => .abort
          | some (a, k2) => heapLoop alloc rest is_cmd_option k2 { cli with program_options := a }
    else
      if cli.cmd_options.length > 0 then
        .userError (.positionalAfterCmdOption arg) cli
      else
        match cli_da_append_h alloc cli.args k arg with
        | none => .abort
        | some (a, k2) => heapLoop alloc rest true k2 { cli with args := a }

/-- An `unsigned short` zero-filled `CliArray`, produced by `*cli =
(struct Cli) { 0 }` on the no-arguments path (its `data` is NULL; nothing is
ever read from it). -/
def zeroArrH : CliArrayH :=
  { length := 0, capacity := 0, data := [], reallocs := 0, oob := false }

/-- Definition of `cli_parse` in the owned configuration (cli.h lines 375-435).  `cli0` is
the caller-supplied `*cli` before the call (the function writes into it
field by field, so un-overwritten fields keep their previous contents).
With further tokens present: `execfile` is stored first, then the three
arrays are `cli_da_init`-ed in the order `args`, `cmd_options`,
`program_options`; each `cli_da_init` sets `capacity = CLI_DEFAULT_ARR_CAP`
and `length = 0` unconditionally and is followed by the `data == NULL`
check that returns `CliErrorFatal`, so in the fatal aggregate the array
that failed has already been initialised (its `data` is NULL in C; the
model keeps the empty cell list, nothing was written).  Mallocs are
allocation calls 0, 1, 2 of the oracle and reallocations continue from
3. -/
def cli_parse_heap (argv : List Tok) (alloc : Nat → Bool) (cli0 : CliHeap) : Option HeapRes :=
  match argv with
  | [] => none
  | execfile :: rest =>
    some (if rest.length > 0 then
        let c1 := { cli0 with execfile := execfile, args := cliDaInitH CLI_DEFAULT_ARR_CAP }
        if alloc 0 then
          let c2 := { c1 with cmd_options := cliDaInitH CLI_DEFAULT_ARR_CAP }
          if alloc 1 then
            let c3 := { c2 with program_options := cliDaInitH CLI_DEFAULT_ARR_CAP }
            if alloc 2 then
              heapLoop alloc rest false 3 c3
            else
              .fatal c3
          else
            .fatal c2
        else
          .fatal c1
      else
        .ok { execfile := execfile, args := zeroArrH, cmd_options := zeroArrH,
              program_options := zeroArrH })

/-- The always-succeeding allocation oracle (heap growth never fails). -/
def allocAll : Nat → Bool := fun _ => true

/-- Appending a sequence of items to an owned array one by one, from a given
array state and allocation-call index, growth always succeeding.  This is
the growth experiment of the spec: N single appends to one container. -/
def ownedRunFrom : CliArrayH × Nat → List Tok → Option (CliArrayH × Nat)
  | s, [] => some s
  | (a, k), t :: ts => (cli_da_append_h allocAll a k t).bind (fun s2 => ownedRunFrom s2 ts)

/-
The borrowed (CLI_NOHEAP) configuration.  `struct CliArray` holds `unsigned
short length`, the arena `stack`, `data` (initialised to `CLI_INVALID_PTR`
by `cli_da_init` and set to the address of the first appended slot), and
`next_unused`, a pointer to the cursor variable shared by the three lists of
one aggregate.  `cli_da_append` writes the item at the cursor, advances the
cursor and increments the length.  The cursor is modelled as the index
`unused` into the caller buffer `stack`; `data` becomes `start : Option Nat`
(`none` for `CLI_INVALID_PTR`); the ghost field `stored` counts append
events.
-/

/-- Layout of `struct CliArray` in the borrowed configuration (the shared `stack` and
cursor live in `ArenaSt`). -/
structure CliArrayN where
  length : Nat
  start : Option Nat
deriving DecidableEq

/-- The state shared by the three lists of one aggregate: the bump cursor,
the caller-supplied buffer, and the ghost count of append events. -/
structure ArenaSt where
  unused : Nat
  stack : List Tok
  stored : Nat
deriving DecidableEq

/-- Definition of `cli_da_append` in the borrowed configuration (cli.h lines 320-329):
`node = *next_unused`; if `data` is still `CLI_INVALID_PTR` it is set to
`node`; `*node = item`; the cursor advances; `length++` (an `unsigned
short`). -/
def cli_da_append_n (s : ArenaSt) (a : CliArrayN) (t : Tok) : ArenaSt × CliArrayN :=
  ({ unused := s.unused + 1, stack := s.stack.set s.unused t, stored := s.stored + 1 },
   { length := (a.length + 1) % 65536,
     start := match a.start with
       | none => some s.unused
       | some i => some i })

/-- Layout of `struct Cli` in the borrowed configuration. -/
structure CliN where
  execfile : Tok
  args : CliArrayN
  cmd_options : CliArrayN
  program_options : CliArrayN
deriving DecidableEq

/-- Outcome tiers reachable in the borrowed configuration (no allocation, so
no `CliErrorFatal`). -/
inductive NRes where
  | ok (cli : CliN)
  | userError (e : CliErr) (cli : CliN)
deriving DecidableEq

/-- The aggregate carried by a borrowed-configuration outcome. -/
def nResCli : NRes → CliN
  | .ok c => c
  | .userError _ c => c

/-- Reading `args.data[args.length - 1]` in the borrowed configuration: the arena
cell at the captured start offset plus `length - 1`. -/
def lastPosN (cli : CliN) (s : ArenaSt) : Tok :=
  match cli.args.start with
  | none => []
  | some i => s.stack.getD (i + cli.args.length - 1) []

/-- The classification loop in the borrowed configuration: the same branches
as `cliLoop` with the arena append.  The final arena state is returned along
with the outcome. -/
def noheapLoop : List Tok → Bool → CliN → ArenaSt → NRes × ArenaSt
  | [], _, cli, s => (.ok cli, s)
  | arg :: rest, is_cmd_option, cli, s =>
    if cidx arg 0 = dashChar then
      if cidx arg 1 = dashChar ∧ cidx arg 2 = nulChar then
        if cli.args.length > 0 then
          (.userError (.doubleDashAfterPositional arg (lastPosN cli s)) cli, s)
        else
          noheapLoop rest true cli s
      else
        if is_cmd_option then
          let p := cli_da_append_n s cli.cmd_options arg
          noheapLoop rest is_cmd_option { cli with cmd_options := p.2 } p.1
        else
          let p := cli_da_append_n s cli.program_options arg
          noheapLoop rest is_cmd_option { cli with program_options := p.2 } p.1
    else
      if cli.cmd_options.length > 0 then
        (.userError (.positionalAfterCmdOption arg) cli, s)
      else
        let p := cli_da_append_n s cli.args arg
        noheapLoop rest true { cli with args := p.2 } p.1

/-- A freshly `cli_parse_noheap`-prepared and `cli_da_init`-ed borrowed array:
`length` zero-initialised by the compound literal, `data` set to
`CLI_INVALID_PTR` by the borrowed `cli_da_init`. -/
def initArrN : CliArrayN := { length := 0, start := none }

/-- Definition of `cli_parse_noheap` (cli.h lines 331-339) followed by `cli_parse` in the
borrowed configuration: the cursor starts at the first slot of `stack`, the
three lists share it, and the classification pass runs as usual.  On the
no-arguments path `*cli = (struct Cli) { 0 }` zeroes the aggregate and the
arena is untouched. -/
def cli_parse_noheap (argv : List Tok) (stack : List Tok) : Option (NRes × ArenaSt) :=
  match argv with
  | [] => none
  | execfile :: rest =>
    some (if rest.length > 0 then
        noheapLoop rest false
          { execfile := execfile, args := initArrN, cmd_options := initArrN,
            program_options := initArrN }
          { unused := 0, stack := stack, stored := 0 }
      else
        (.ok { execfile := execfile, args := initArrN, cmd_options := initArrN,
               program_options := initArrN },
         { unused := 0, stack := stack, stored := 0 }))

/-- Total stored length across the three lists of a borrowed aggregate. -/
def sumLenN (cli : CliN) : Nat :=
  cli.args.length + cli.cmd_options.length + cli.program_options.length

/-- Boolean form of the separator test the classifier applies to a token:
`arg[0] == '-' && arg[1] == '-'` with a NUL at `arg[2]`. -/
def tokIsSep (t : Tok) : Bool :=
  cidx t 0 == dashChar && (cidx t 1 == dashChar && cidx t 2 == nulChar)

lemma tokIsSep_true_iff (t : Tok) :
    tokIsSep t = true ↔ (cidx t 0 = dashChar ∧ cidx t 1 = dashChar ∧ cidx t 2 = nulChar) := by
  simp [tokIsSep, Bool.and_eq_true, beq_iff_eq, and_assoc]

/-- On NUL-free tokens the separator test of the source recognises exactly the
token `--`. -/
lemma tokIsSep_iff (t : Tok) (hn : nulChar ∉ t) : tokIsSep t = true ↔ t = sepTok := by
  rw [tokIsSep_true_iff]
  match t with
  | [] => simp [cidx, sepTok]; decide
  | [c1] =>
    simp only [cidx, List.getD, sepTok]
    constructor
    · rintro ⟨-, h1, -⟩
      exact absurd h1 (by simp [List.getElem?_eq_none]; decide)
    · intro h
      exact absurd h (by simp)
  | [c1, c2] =>
    simp [cidx, sepTok, List.getD]
  | c1 :: c2 :: c3 :: ts =>
    have hc3 : c3 ≠ nulChar := by
      intro h
      exact hn (by simp [h])
    constructor
    · rintro ⟨-, -, h2⟩
      exact absurd h2 (by simpa [cidx, List.getD] using hc3)
    · intro h
      exact absurd h (by simp [sepTok])

example : cli_parse [['p'], ['-', 'v'], ['-', '-', 'v']] =
    some (.ok ⟨['p'], ⟨0, []⟩, ⟨0, []⟩, ⟨2, [['-', 'v'], ['-', '-', 'v']]⟩⟩) := by decide

example : cli_parse [['p'], ['b'], ['-', 'r'], ['4']] =
    some (.userError (.positionalAfterCmdOption ['4'])
      ⟨['p'], ⟨1, [['b']]⟩, ⟨1, [['-', 'r']]⟩, ⟨0, []⟩⟩) := by
  decide

example : cli_parse [['p'], sepTok, ['-', 'f']] =
    some (.ok ⟨['p'], ⟨0, []⟩, ⟨1, [['-', 'f']]⟩, ⟨0, []⟩⟩) := by decide

example : cli_parse [['p'], ['a'], sepTok, ['b']] =
    some (.userError (.doubleDashAfterPositional sepTok ['a'])
      ⟨['p'], ⟨1, [['a']]⟩, ⟨0, []⟩, ⟨0, []⟩⟩) := by
  decide

/-- Single classifier step on a positional token (first read character not a
dash): fail on a non-zero 16-bit `cmd_options.length` field, else push onto
`args` and set the scope flag. -/
lemma cliLoop_step_pos (t : Tok) (rest : List Tok) (sc : Bool) (cli : Cli)
    (hp : ¬(cidx t 0 = dashChar)) :
    cliLoop (t :: rest) sc cli =
      if cli.cmd_options.length > 0 then
        .userError (.positionalAfterCmdOption t) cli
      else
        cliLoop rest true { cli with args := cliPush cli.args t } := by
  simp only [cliLoop]
  rw [if_neg hp]

/-- Single classifier step on a dash-initial non-separator token with the
subcommand scope active: push onto `cmd_options`, flag unchanged. -/
lemma cliLoop_step_optT (t : Tok) (rest : List Tok) (cli : Cli)
    (hd : cidx t 0 = dashChar) (hs : ¬(cidx t 1 = dashChar ∧ cidx t 2 = nulChar)) :
    cliLoop (t :: rest) true cli =
      cliLoop rest true { cli with cmd_options := cliPush cli.cmd_options t } := by
  simp only [cliLoop]
  rw [if_pos hd, if_neg hs]
  simp

/-- A run of `n + 1` consecutive dash-initial non-separator tokens with the
subcommand scope active: each one is appended to `cmd_options`, the 16-bit
field advancing mod 2 ^ 16. -/
lemma cliLoop_cmdRun (tok : Tok) (hd : cidx tok 0 = dashChar)
    (hs : ¬(cidx tok 1 = dashChar ∧ cidx tok 2 = nulChar)) (n : Nat) :
    ∀ (rest : List Tok) (e : Tok) (ar po : CliList) (f : Nat) (ts : List Tok),
    cliLoop (List.replicate (n + 1) tok ++ rest) true ⟨e, ar, ⟨f, ts⟩, po⟩ =
      cliLoop rest true
        ⟨e, ar, ⟨(f + (n + 1)) % 65536, ts ++ List.replicate (n + 1) tok⟩, po⟩ := by
  induction n with
  | zero =>
    intro rest e ar po f ts
    rw [show List.replicate 1 tok ++ rest = tok :: rest from rfl]
    rw [cliLoop_step_optT tok rest _ hd hs]
    rfl
  | succ n ih =>
    intro rest e ar po f ts
    rw [show List.replicate (n + 1 + 1) tok ++ rest =
      tok :: (List.replicate (n + 1) tok ++ rest) from rfl]
    rw [cliLoop_step_optT tok _ _ hd hs]
    show cliLoop (List.replicate (n + 1) tok ++ rest) true
        ⟨e, ar, ⟨(f + 1) % 65536, ts ++ [tok]⟩, po⟩ = _
    rw [ih rest e ar po ((f + 1) % 65536) (ts ++ [tok])]
    have hmod : ((f + 1) % 65536 + (n + 1)) % 65536 = (f + (n + 1 + 1)) % 65536 := by
      rw [Nat.mod_add_mod]
      congr 1
      omega
    have hlist : ts ++ [tok] ++ List.replicate (n + 1) tok =
        ts ++ List.replicate (n + 1 + 1) tok := by
      rw [List.append_assoc, List.singleton_append,
        show tok :: List.replicate (n + 1) tok = List.replicate (n + 1 + 1) tok from rfl]
    rw [hmod, hlist]

/-- Single classifier step on the separator with the 16-bit `args.length`
field reading zero: the scope flag is set and the token consumed. -/
lemma cliLoop_step_sepSkip (rest : List Tok) (sc : Bool) (cli : Cli)
    (ha : ¬cli.args.length > 0) :
    cliLoop (sepTok :: rest) sc cli = cliLoop rest true cli := by
  simp only [cliLoop]
  rw [if_pos (by decide : cidx sepTok 0 = dashChar),
    if_pos (⟨by decide, by decide⟩ : cidx sepTok 1 = dashChar ∧ cidx sepTok 2 = nulChar),
    if_neg ha]

/-- Unfolding of `cli_parse` on a non-empty tail, without evaluating the
tail. -/
lemma cli_parse_cons_pos (e : Tok) (rest : List Tok) (h : rest.length > 0) :
    cli_parse (e :: rest) =
      some (cliLoop rest false ⟨e, ⟨0, []⟩, ⟨0, []⟩, ⟨0, []⟩⟩) := by
  simp only [cli_parse]
  rw [if_pos h]

/-- Shared wrap run for the C2 and C4 counterexamples: after an accepted
`--`, 65536 command options wrap the 16-bit `cmd_options.length` field to
zero (defined behaviour in the CLI_NOHEAP build), so the following
positional `b` is appended to `args` instead of failing, and the parse
returns `Ok`. -/
lemma wrapRun_ok :
    cli_parse (['p'] :: sepTok :: (List.replicate 65536 ['-', 'a'] ++ [['b']])) =
      some (.ok ⟨['p'], ⟨1, [['b']]⟩, ⟨0, List.replicate 65536 ['-', 'a']⟩, ⟨0, []⟩⟩) := by
  have h1 := cli_parse_cons_pos ['p'] (sepTok :: (List.replicate 65536 ['-', 'a'] ++ [['b']]))
    (by rw [List.length_cons]; omega)
  have h2 : cliLoop (sepTok :: (List.replicate 65536 ['-', 'a'] ++ [['b']])) false
      ⟨['p'], ⟨0, []⟩, ⟨0, []⟩, ⟨0, []⟩⟩ =
      cliLoop (List.replicate 65536 ['-', 'a'] ++ [['b']]) true
        ⟨['p'], ⟨0, []⟩, ⟨0, []⟩, ⟨0, []⟩⟩ :=
    cliLoop_step_sepSkip _ false _ (by
      show ¬(0 : Nat) > 0
      omega)
  have h3 := cliLoop_cmdRun ['-', 'a'] (by decide) (by decide) 65535 [['b']] ['p']
    ⟨0, []⟩ ⟨0, []⟩ 0 []
  rw [show (65535 + 1 : Nat) = 65536 from rfl] at h3
  rw [show ((0 + 65536) % 65536 : Nat) = 0 from by norm_num] at h3
  rw [List.nil_append] at h3
  have h4 : cliLoop [['b']] true
      ⟨['p'], ⟨0, []⟩, ⟨0, List.replicate 65536 ['-', 'a']⟩, ⟨0, []⟩⟩ =
      .ok ⟨['p'], ⟨1, [['b']]⟩, ⟨0, List.replicate 65536 ['-', 'a']⟩, ⟨0, []⟩⟩ := by
    rw [cliLoop_step_pos ['b'] [] true _ (by decide)]
    rw [if_neg (show ¬(0 : Nat) > 0 by omega)]
    rfl
  exact h1.trans (congrArg some (h2.trans (h3.trans h4)))

/-- Claim C2, counterexample to the claim as stated: with `cmd_options`
holding 65536 recorded option tokens (field wrapped to zero), the next
positional is appended to `args` and the parse returns `Ok` instead of
failing with `PositionalAfterCmdOption`. -/
theorem claim2_cex :
    cli_parse (['p'] :: sepTok :: (List.replicate 65536 ['-', 'a'] ++ [['b']])) =
      some (.ok ⟨['p'], ⟨1, [['b']]⟩, ⟨0, List.replicate 65536 ['-', 'a']⟩, ⟨0, []⟩⟩) ∧
    0 < (List.replicate 65536 (['-', 'a'] : Tok)).length :=
  ⟨wrapRun_ok, by rw [List.length_replicate]; omega⟩

/-- Claim C2 (amended): a token whose first character is not a dash (the
empty token included, whose first read is already the NUL terminator) is a
positional, and the classifier tests the 16-bit `cmd_options.length` field
(cli.h line 418): if the field is non-zero — which coincides with some
subcommand option having been recorded whenever fewer than 2 ^ 16 of them
have been, but reads zero again after a multiple of 2 ^ 16 — it fails with
`positionalAfterCmdOption` carrying the token and leaving the aggregate
untouched; if the field reads zero, the token is appended to `args` and the
subcommand-scope flag is set. -/
theorem claim2_thm (t : Tok) (rest : List Tok) (sc : Bool) (cli : Cli)
    (h : cidx t 0 ≠ dashChar) :
    cliLoop (t :: rest) sc cli =
      if cli.cmd_options.length > 0 then
        .userError (.positionalAfterCmdOption t) cli
      else
        cliLoop rest true { cli with args := cliPush cli.args t } := by
  simp only [cliLoop]
  rw [if_neg h]

theorem claim2_witness :
    cliLoop [[]] false ⟨['p'], ⟨0, []⟩, ⟨0, []⟩, ⟨0, []⟩⟩ =
      cliLoop [] true ⟨['p'], ⟨1, [[]]⟩, ⟨0, []⟩, ⟨0, []⟩⟩ := by
  have h := claim2_thm [] [] false ⟨['p'], ⟨0, []⟩, ⟨0, []⟩, ⟨0, []⟩⟩ (by decide)
  simpa [cliPush] using h

/-- Claim C3: a dash-initial token other than the two-dash separator (a lone
`-` included) is appended to `cmd_options` when the subcommand scope is
active and to `program_options` otherwise, and the pass continues with the
same flag — the token is neither dropped nor sent anywhere else. -/
theorem claim3_thm (t : Tok) (rest : List Tok) (sc : Bool) (cli : Cli)
    (hn : nulChar ∉ t) (h0 : cidx t 0 = dashChar) (hne : t ≠ sepTok) :
    cliLoop (t :: rest) sc cli =
      cliLoop rest sc
        (if sc then { cli with cmd_options := cliPush cli.cmd_options t }
         else { cli with program_options := cliPush cli.program_options t }) := by
  have hs : ¬(cidx t 1 = dashChar ∧ cidx t 2 = nulChar) := by
    intro h
    exact hne ((tokIsSep_iff t hn).mp ((tokIsSep_true_iff t).mpr ⟨h0, h⟩))
  simp only [cliLoop]
  rw [if_pos h0, if_neg hs]
  cases sc <;> simp

theorem claim3_witness :
    cliLoop [[dashChar]] false ⟨['p'], ⟨0, []⟩, ⟨0, []⟩, ⟨0, []⟩⟩ =
      cliLoop [] false ⟨['p'], ⟨0, []⟩, ⟨0, []⟩, ⟨1, [[dashChar]]⟩⟩ := by
  have h := claim3_thm [dashChar] [] false ⟨['p'], ⟨0, []⟩, ⟨0, []⟩, ⟨0, []⟩⟩ (by decide)
    (by decide) (by decide)
  simpa [cliPush] using h

/-- Claim C6: an input vector holding only the execution path parses to the
`Ok` tier with `execfile` set and all three lists empty. -/
theorem claim6_thm (e : Tok) :
    cli_parse [e] = some (.ok ⟨e, ⟨0, []⟩, ⟨0, []⟩, ⟨0, []⟩⟩) := rfl

/-- Claim C7: whenever the pass ends in a grammar violation, the input splits
as `pre ++ t :: suf` where running the classifier over `pre` alone reaches
exactly the reported aggregate (every element appended before the offence is
still in place, and nothing else was touched), and the offending token `t`
produces that same error with that same aggregate immediately — whatever
follows it is never consumed. -/
theorem claim7_thm (rest : List Tok) : ∀ (sc : Bool) (cli : Cli) (e : CliErr) (c2 : Cli),
    cliLoop rest sc cli = .userError e c2 →
    ∃ pre t suf sc2, rest = pre ++ t :: suf ∧
      cliLoopSt pre sc cli = some (sc2, c2) ∧
      ∀ suf2, cliLoop (t :: suf2) sc2 c2 = .userError e c2 := by
  induction rest with
  | nil =>
    intro sc cli e c2 h
    exact absurd h (by simp [cliLoop])
  | cons arg rest ih =>
    intro sc cli e c2 h
    simp only [cliLoop] at h
    by_cases hd : cidx arg 0 = dashChar
    · rw [if_pos hd] at h
      by_cases hs : cidx arg 1 = dashChar ∧ cidx arg 2 = nulChar
      · rw [if_pos hs] at h
        by_cases ha : cli.args.length > 0
        · rw [if_pos ha] at h
          injection h with he hc
          refine ⟨[], arg, rest, sc, rfl, ?_, ?_⟩
          · rw [← hc]
            rfl
          · intro suf2
            simp only [cliLoop]
            rw [if_pos hd, if_pos hs, if_pos (hc ▸ ha), ← hc, ← he]
        · rw [if_neg ha] at h
          obtain ⟨pre, t, suf, sc2, hsplit, hst, himm⟩ := ih true cli e c2 h
          refine ⟨arg :: pre, t, suf, sc2, by simp [hsplit], ?_, himm⟩
          simp only [cliLoopSt]
          rw [if_pos hd, if_pos hs, if_neg ha]
          exact hst
      · rw [if_neg hs] at h
        by_cases hc : sc = true
        · rw [if_pos hc] at h
          obtain ⟨pre, t, suf, sc2, hsplit, hst, himm⟩ :=
            ih sc { cli with cmd_options := cliPush cli.cmd_options arg } e c2 h
          refine ⟨arg :: pre, t, suf, sc2, by simp [hsplit], ?_, himm⟩
          simp only [cliLoopSt]
          rw [if_pos hd, if_neg hs, if_pos hc]
          exact hst
        · rw [if_neg hc] at h
          obtain ⟨pre, t, suf, sc2, hsplit, hst, himm⟩ :=
            ih sc { cli with program_options := cliPush cli.program_options arg } e c2 h
          refine ⟨arg :: pre, t, suf, sc2, by simp [hsplit], ?_, himm⟩
          simp only [cliLoopSt]
          rw [if_pos hd, if_neg hs, if_neg hc]
          exact hst
    · rw [if_neg hd] at h
      by_cases hco : cli.cmd_options.length > 0
      · rw [if_pos hco] at h
        injection h with he hc
        refine ⟨[], arg, rest, sc, rfl, ?_, ?_⟩
        · rw [← hc]
          rfl
        · intro suf2
          simp only [cliLoop]
          rw [if_neg hd, if_pos (hc ▸ hco), ← hc, ← he]
      · rw [if_neg hco] at h
        obtain ⟨pre, t, suf, sc2, hsplit, hst, himm⟩ :=
          ih true { cli with args := cliPush cli.args arg } e c2 h
        refine ⟨arg :: pre, t, suf, sc2, by simp [hsplit], ?_, himm⟩
        simp only [cliLoopSt]
        rw [if_neg hd, if_neg hco]
        exact hst

theorem claim7_witness :
    ∃ pre t suf sc2, [['a'], sepTok, ['z']] = pre ++ t :: suf ∧
      cliLoopSt pre false ⟨['p'], ⟨0, []⟩, ⟨0, []⟩, ⟨0, []⟩⟩ =
        some (sc2, ⟨['p'], ⟨1, [['a']]⟩, ⟨0, []⟩, ⟨0, []⟩⟩) ∧
      ∀ suf2, cliLoop (t :: suf2) sc2 ⟨['p'], ⟨1, [['a']]⟩, ⟨0, []⟩, ⟨0, []⟩⟩ =
        .userError (.doubleDashAfterPositional sepTok ['a'])
          ⟨['p'], ⟨1, [['a']]⟩, ⟨0, []⟩, ⟨0, []⟩⟩ :=
  claim7_thm [['a'], sepTok, ['z']] false ⟨['p'], ⟨0, []⟩, ⟨0, []⟩, ⟨0, []⟩⟩
    (.doubleDashAfterPositional sepTok ['a'])
    ⟨['p'], ⟨1, [['a']]⟩, ⟨0, []⟩, ⟨0, []⟩⟩ (by decide)

/-- Structure of a successful pass from an arbitrary intermediate state whose
16-bit length fields agree with the stored counts and whose run cannot wrap
them: the fields still agree at the end, each list has grown by a suffix,
and the three suffixes concatenated in the order `program_options ++ args ++
cmd_options` are exactly the consumed tokens with the accepted separators
removed.  The two side clauses record why that order is right below the
wrap: with the subcommand scope already active no program option can be
appended any more, and with `cmd_options` already non-empty no positional
can be appended any more. -/
lemma cliLoop_ok_concat (rest : List Tok) : ∀ (sc : Bool) (cli cli2 : Cli),
    cliLoop rest sc cli = .ok cli2 →
    cli.args.length = cli.args.toks.length →
    cli.cmd_options.length = cli.cmd_options.toks.length →
    cli.program_options.length = cli.program_options.toks.length →
    cli.args.toks.length + cli.cmd_options.toks.length + cli.program_options.toks.length
      + rest.length < 65536 →
    (cli2.args.length = cli2.args.toks.length ∧
      cli2.cmd_options.length = cli2.cmd_options.toks.length ∧
      cli2.program_options.length = cli2.program_options.toks.length) ∧
    ∃ p a c, cli2.program_options.toks = cli.program_options.toks ++ p ∧
      cli2.args.toks = cli.args.toks ++ a ∧
      cli2.cmd_options.toks = cli.cmd_options.toks ++ c ∧
      p ++ a ++ c = rest.filter (fun t => !(tokIsSep t)) ∧
      (sc = true → p = []) ∧ (cli.cmd_options.toks ≠ [] → a = []) := by
  induction rest with
  | nil =>
    intro sc cli cli2 h hf1 hf2 hf3 hb
    simp only [cliLoop] at h
    injection h with h
    subst h
    exact ⟨⟨hf1, hf2, hf3⟩, [], [], [], by simp, by simp, by simp, by simp,
      fun _ => rfl, fun _ => rfl⟩
  | cons arg rest ih =>
    intro sc cli cli2 h hf1 hf2 hf3 hb
    simp only [List.length_cons] at hb
    simp only [cliLoop] at h
    by_cases hd : cidx arg 0 = dashChar
    · rw [if_pos hd] at h
      by_cases hs : cidx arg 1 = dashChar ∧ cidx arg 2 = nulChar
      · rw [if_pos hs] at h
        have hsep : tokIsSep arg = true := (tokIsSep_true_iff arg).mpr ⟨hd, hs⟩
        by_cases ha : cli.args.length > 0
        · rw [if_pos ha] at h
          exact absurd h (by simp)
        · rw [if_neg ha] at h
          obtain ⟨hf, p, a, c, hp, hA, hc, hcat, hscp, hcmda⟩ :=
            ih true cli cli2 h hf1 hf2 hf3 (by omega)
          exact ⟨hf, p, a, c, hp, hA, hc,
            by rw [List.filter_cons_of_neg (by simp [hsep])]; exact hcat,
            fun _ => hscp rfl, hcmda⟩
      · rw [if_neg hs] at h
        have hsep : tokIsSep arg = false := by
          cases hv : tokIsSep arg
          · rfl
          · exact absurd ((tokIsSep_true_iff arg).mp hv).2 hs
        by_cases hc : sc = true
        · rw [if_pos hc] at h
          have hcm1 : cli.cmd_options.toks.length + 1 < 65536 := by omega
          obtain ⟨hf, p, a, c, hp, hA, hcm, hcat, hscp, hcmda⟩ :=
            ih sc { cli with cmd_options := cliPush cli.cmd_options arg } cli2 h hf1
              (by simp [cliPush, hf2, Nat.mod_eq_of_lt hcm1])
              hf3 (by simp [cliPush]; omega)
          have hp0 : p = [] := hscp hc
          have ha0 : a = [] := hcmda (by simp [cliPush])
          refine ⟨hf, [], [], arg :: c, by simpa [hp0] using hp, by simpa [ha0] using hA,
            by simpa [cliPush] using hcm, ?_, fun _ => rfl, fun _ => rfl⟩
          rw [List.filter_cons_of_pos (by simp [hsep])]
          simpa [hp0, ha0] using hcat
        · rw [if_neg hc] at h
          have hpo1 : cli.program_options.toks.length + 1 < 65536 := by omega
          obtain ⟨hf, p, a, c, hp, hA, hcm, hcat, hscp, hcmda⟩ :=
            ih sc { cli with program_options := cliPush cli.program_options arg } cli2 h hf1
              hf2 (by simp [cliPush, hf3, Nat.mod_eq_of_lt hpo1])
              (by simp [cliPush]; omega)
          refine ⟨hf, arg :: p, a, c, by simpa [cliPush] using hp, hA, hcm, ?_, ?_, hcmda⟩
          · rw [List.filter_cons_of_pos (by simp [hsep])]
            simpa using hcat
          · intro hsc
            exact absurd hsc hc
    · rw [if_neg hd] at h
      have hsep : tokIsSep arg = false := by
        cases hv : tokIsSep arg
        · rfl
        · exact absurd ((tokIsSep_true_iff arg).mp hv).1 hd
      by_cases hco : cli.cmd_options.length > 0
      · rw [if_pos hco] at h
        exact absurd h (by simp)
      · rw [if_neg hco] at h
        have har1 : cli.args.toks.length + 1 < 65536 := by omega
        obtain ⟨hf, p, a, c, hp, hA, hcm, hcat, hscp, hcmda⟩ :=
          ih true { cli with args := cliPush cli.args arg } cli2 h
            (by simp [cliPush, hf1, Nat.mod_eq_of_lt har1]) hf2 hf3
            (by simp [cliPush]; omega)
        have hp0 : p = [] := hscp rfl
        refine ⟨hf, [], arg :: a, c, by simpa [hp0] using hp,
          by simpa [cliPush] using hA, hcm, ?_, fun _ => rfl, ?_⟩
        · rw [List.filter_cons_of_pos (by simp [hsep])]
          simpa [hp0] using hcat
        · intro hne
          have : cli.cmd_options.toks.length = 0 := by omega
          exact absurd (List.length_eq_zero.mp this) hne

/-- On NUL-free tokens, filtering out what the separator test accepts is
filtering out the token `--` itself. -/
lemma filter_sep_eq (rest : List Tok) (hn : ∀ t ∈ rest, nulChar ∉ t) :
    rest.filter (fun t => !(tokIsSep t)) = rest.filter (fun t => decide (t ≠ sepTok)) := by
  refine List.filter_congr ?_
  intro t ht
  cases hv : tokIsSep t
  · have : t ≠ sepTok := by
      intro h
      rw [(tokIsSep_iff t (hn t ht)).mpr h] at hv
      exact Bool.noConfusion hv
    simp [this]
  · have : t = sepTok := (tokIsSep_iff t (hn t ht)).mp hv
    simp [this]

/-- Claim C4, counterexample to the claim as stated: the wrap run of
`wrapRun_ok` is a successful parse, but the three lists the caller reads
back (the wrapped 16-bit `length` field many elements each) concatenate to
just `[b]`, a strict subset of the 65537 non-separator input tokens, so the
claimed permutation fails on an `Ok` run. -/
theorem claim4_cex :
    cli_parse (['p'] :: sepTok :: (List.replicate 65536 ['-', 'a'] ++ [['b']])) =
      some (.ok ⟨['p'], ⟨1, [['b']]⟩, ⟨0, List.replicate 65536 ['-', 'a']⟩, ⟨0, []⟩⟩) ∧
    ¬ (cliView ⟨0, []⟩ ++ cliView ⟨1, [['b']]⟩ ++
        cliView ⟨0, List.replicate 65536 ['-', 'a']⟩).Perm
      ((sepTok :: (List.replicate 65536 ['-', 'a'] ++ [['b']])).filter
        (fun t => decide (t ≠ sepTok))) := by
  refine ⟨wrapRun_ok, ?_⟩
  intro hperm
  have hL : cliView (⟨0, []⟩ : CliList) ++ cliView ⟨1, [['b']]⟩ ++
      cliView ⟨0, List.replicate 65536 ['-', 'a']⟩ = [['b']] := by
    simp only [cliView, List.take_zero, List.nil_append, List.append_nil]
    rfl
  rw [hL] at hperm
  have hlen := hperm.length_eq
  have hR : ((sepTok :: (List.replicate 65536 ['-', 'a'] ++ [['b']])).filter
      (fun t => decide (t ≠ sepTok))).length = 65537 := by
    rw [List.filter_cons_of_neg (by decide)]
    rw [List.filter_append, List.filter_replicate, if_pos (by decide)]
    rw [show List.filter (fun t => decide (t ≠ sepTok)) [['b']] = [['b']] from by decide]
    rw [List.length_append, List.length_replicate]
    rfl
  rw [hR] at hlen
  exact absurd hlen (by decide)

/-- Claim C4 (amended): on a successful parse of a vector whose tail is
shorter than 2 ^ 16 tokens — so that no 16-bit length field can wrap — the
concatenation of the three lists the caller reads back, in the order
`program_options ++ args ++ cmd_options` (each in capture order), is a
permutation of the tokens after the execution path with every `--`
separator removed. -/
theorem claim4_thm (e : Tok) (rest : List Tok) (cli2 : Cli)
    (hn : ∀ t ∈ rest, nulChar ∉ t) (hlen : rest.length < 65536)
    (h : cli_parse (e :: rest) = some (.ok cli2)) :
    (cliView cli2.program_options ++ cliView cli2.args ++ cliView cli2.cmd_options).Perm
      (rest.filter (fun t => decide (t ≠ sepTok))) := by
  simp only [cli_parse, Option.some.injEq] at h
  by_cases hr : rest.length > 0
  · rw [if_pos hr] at h
    obtain ⟨⟨hv1, hv2, hv3⟩, p, a, c, hp, hA, hcm, hcat, -, -⟩ :=
      cliLoop_ok_concat rest false _ cli2 h rfl rfl rfl (by simpa using hlen)
    rw [show cliView cli2.program_options = cli2.program_options.toks from by
        rw [cliView, hv3, List.take_length],
      show cliView cli2.args = cli2.args.toks from by
        rw [cliView, hv1, List.take_length],
      show cliView cli2.cmd_options = cli2.cmd_options.toks from by
        rw [cliView, hv2, List.take_length]]
    rw [hp, hA, hcm]
    simp only [List.nil_append]
    rw [← filter_sep_eq rest hn, ← hcat]
  · rw [if_neg hr] at h
    have hrest : rest = [] := List.length_eq_zero.mp (Nat.eq_zero_of_not_pos hr)
    subst hrest
    injection h with h
    rw [← h]
    simp [cliView]

theorem claim4_witness :
    cli_parse [['p'], ['-', 'v'], sepTok, ['-', 'j']] =
      some (.ok ⟨['p'], ⟨0, []⟩, ⟨1, [['-', 'j']]⟩, ⟨1, [['-', 'v']]⟩⟩) ∧
    (cliView ⟨1, [['-', 'v']]⟩ ++ cliView ⟨0, []⟩ ++ cliView ⟨1, [['-', 'j']]⟩).Perm
      ([['-', 'v'], sepTok, ['-', 'j']].filter (fun t => decide (t ≠ sepTok))) := by
  constructor
  · decide
  · have h := claim4_thm ['p'] [['-', 'v'], sepTok, ['-', 'j']]
      ⟨['p'], ⟨0, []⟩, ⟨1, [['-', 'j']]⟩, ⟨1, [['-', 'v']]⟩⟩ (by decide) (by decide) (by decide)
    simpa using h
/-- The owned-configuration loop never changes `execfile`: whenever it returns
an aggregate to the caller, the `execfile` field is the one it started with. -/
lemma heapLoop_exec (alloc : Nat → Bool) (rest : List Tok) :
    ∀ (sc : Bool) (k : Nat) (cli c : CliHeap),
    heapResCli (heapLoop alloc rest sc k cli) = some c → c.execfile = cli.execfile := by
  induction rest with
  | nil =>
    intro sc k cli c h
    simp only [heapLoop, heapResCli, Option.some.injEq] at h
    rw [← h]
  | cons arg rest ih =>
    intro sc k cli c h
    simp only [heapLoop] at h
    by_cases hd : cidx arg 0 = dashChar
    · rw [if_pos hd] at h
      by_cases hs : cidx arg 1 = dashChar ∧ cidx arg 2 = nulChar
      · rw [if_pos hs] at h
        by_cases ha : cli.args.length > 0
        · rw [if_pos ha] at h
          simp only [heapResCli, Option.some.injEq] at h
          rw [← h]
        · rw [if_neg ha] at h
          exact ih true k cli c h
      · rw [if_neg hs] at h
        by_cases hc : sc = true
        · rw [if_pos hc] at h
          cases hm : cli_da_append_h alloc cli.cmd_options k arg with
          | none =>
            rw [hm] at h
            exact absurd h (by simp [heapResCli])
          | some p =>
            obtain ⟨a, k2⟩ := p
            rw [hm] at h
            exact ih sc k2 { cli with cmd_options := a } c h
        · rw [if_neg hc] at h
          cases hm : cli_da_append_h alloc cli.program_options k arg with
          | none =>
            rw [hm] at h
            exact absurd h (by simp [heapResCli])
          | some p =>
            obtain ⟨a, k2⟩ := p
            rw [hm] at h
            exact ih sc k2 { cli with program_options := a } c h
    · rw [if_neg hd] at h
      by_cases hco : cli.cmd_options.length > 0
      · rw [if_pos hco] at h
        simp only [heapResCli, Option.some.injEq] at h
        rw [← h]
      · rw [if_neg hco] at h
        cases hm : cli_da_append_h alloc cli.args k arg with
        | none =>
          rw [hm] at h
          exact absurd h (by simp [heapResCli])
        | some p =>
          obtain ⟨a, k2⟩ := p
          rw [hm] at h
          exact ih true k2 { cli with args := a } c h

/-- Claim C5: for a non-empty input vector, whatever tier `cli_parse` returns
(`Ok`, `UserError` or `FatalError`) and whatever the allocation oracle does,
the aggregate the caller sees has `execfile` equal to the first input token —
it is stored before anything can fail. -/
theorem claim5_thm (e : Tok) (rest : List Tok) (alloc : Nat → Bool) (cli0 : CliHeap)
    (out : HeapRes) (c : CliHeap)
    (h1 : cli_parse_heap (e :: rest) alloc cli0 = some out)
    (h2 : heapResCli out = some c) :
    c.execfile = e := by
  simp only [cli_parse_heap, Option.some.injEq] at h1
  by_cases hr : rest.length > 0
  · rw [if_pos hr] at h1
    by_cases h0 : alloc 0 = true
    · rw [if_pos h0] at h1
      by_cases ha : alloc 1 = true
      · rw [if_pos ha] at h1
        by_cases hb : alloc 2 = true
        · rw [if_pos hb] at h1
          rw [← h1] at h2
          exact heapLoop_exec alloc rest false 3 _ c h2
        · rw [if_neg hb] at h1
          rw [← h1] at h2
          simp only [heapResCli, Option.some.injEq] at h2
          rw [← h2]
      · rw [if_neg ha] at h1
        rw [← h1] at h2
        simp only [heapResCli, Option.some.injEq] at h2
        rw [← h2]
    · rw [if_neg h0] at h1
      rw [← h1] at h2
      simp only [heapResCli, Option.some.injEq] at h2
      rw [← h2]
  · rw [if_neg hr] at h1
    rw [← h1] at h2
    simp only [heapResCli, Option.some.injEq] at h2
    rw [← h2]

theorem claim5_witness :
    (⟨['p'], ⟨1, 5, [['a']], 0, false⟩, cliDaInitH 5, cliDaInitH 5⟩ : CliHeap).execfile =
      ['p'] :=
  claim5_thm ['p'] [['a']] allocAll ⟨[], zeroArrH, zeroArrH, zeroArrH⟩
    (.ok ⟨['p'], ⟨1, 5, [['a']], 0, false⟩, cliDaInitH 5, cliDaInitH 5⟩)
    ⟨['p'], ⟨1, 5, [['a']], 0, false⟩, cliDaInitH 5, cliDaInitH 5⟩ (by decide) (by decide)

/-- The owned-configuration loop can end in `Ok`, `UserError` or the assertion
abort, but never in the `FatalError` tier: no branch of the `while` loop
returns `CliErrorFatal`. -/
lemma heapLoop_not_fatal (alloc : Nat → Bool) (rest : List Tok) :
    ∀ (sc : Bool) (k : Nat) (cli : CliHeap),
    isFatalH (heapLoop alloc rest sc k cli) = false := by
  induction rest with
  | nil =>
    intro sc k cli
    simp [heapLoop, isFatalH]
  | cons arg rest ih =>
    intro sc k cli
    simp only [heapLoop]
    by_cases hd : cidx arg 0 = dashChar
    · rw [if_pos hd]
      by_cases hs : cidx arg 1 = dashChar ∧ cidx arg 2 = nulChar
      · rw [if_pos hs]
        by_cases ha : cli.args.length > 0
        · rw [if_pos ha]
          rfl
        · rw [if_neg ha]
          exact ih true k cli
      · rw [if_neg hs]
        by_cases hc : sc = true
        · rw [if_pos hc]
          cases hm : cli_da_append_h alloc cli.cmd_options k arg with
          | none => rfl
          | some p =>
            obtain ⟨a, k2⟩ := p
            exact ih sc k2 _
        · rw [if_neg hc]
          cases hm : cli_da_append_h alloc cli.program_options k arg with
          | none => rfl
          | some p =>
            obtain ⟨a, k2⟩ := p
            exact ih sc k2 _
    · rw [if_neg hd]
      by_cases hco : cli.cmd_options.length > 0
      · rw [if_pos hco]
        rfl
      · rw [if_neg hco]
        cases hm : cli_da_append_h alloc cli.args k arg with
        | none => rfl
        | some p =>
          obtain ⟨a, k2⟩ := p
          exact ih true k2 _

/-- Claim C8, counterexample to the claim as stated: six positional tokens
overflow the default capacity 5 on the sixth append; the oracle lets the
three `cli_da_init` mallocs (allocation calls 0, 1, 2) succeed and fails the
growth reallocation (call 3).  The outcome is the `CLI_ASSERT(0)` abort, not
the `FatalError` tier — a growth failure is never reported to the caller as
`CliErrorFatal`. -/
theorem claim8_cex :
    cli_parse_heap (['p'] :: List.replicate 6 ['a']) (fun k => decide (k < 3))
        ⟨[], zeroArrH, zeroArrH, zeroArrH⟩ = some .abort ∧
    resIsFatal (cli_parse_heap (['p'] :: List.replicate 6 ['a']) (fun k => decide (k < 3))
        ⟨[], zeroArrH, zeroArrH, zeroArrH⟩) = false := by
  constructor
  · decide
  · decide

/-- Claim C8 (amended): with further tokens present, `cli_parse` returns the
`FatalError` tier exactly when one of the three initial `cli_da_init`
allocations fails (allocation calls 0, 1, 2); a failure to grow a container
inside `cli_da_append` instead hits `CLI_ASSERT(0)` and never returns, so no
outcome the caller sees reports a growth failure as `FatalError`. -/
theorem claim8_thm (e : Tok) (rest : List Tok) (alloc : Nat → Bool) (cli0 : CliHeap)
    (hr : rest ≠ []) :
    resIsFatal (cli_parse_heap (e :: rest) alloc cli0) = true ↔
      ¬(alloc 0 = true ∧ alloc 1 = true ∧ alloc 2 = true) := by
  have hlen : rest.length > 0 := List.length_pos.mpr hr
  simp only [cli_parse_heap, resIsFatal]
  rw [if_pos hlen]
  by_cases h0 : alloc 0 = true
  · rw [if_pos h0]
    by_cases ha : alloc 1 = true
    · rw [if_pos ha]
      by_cases hb : alloc 2 = true
      · rw [if_pos hb]
        rw [heapLoop_not_fatal alloc rest false 3 _]
        simp [h0, ha, hb]
      · rw [if_neg hb]
        simp [isFatalH, h0, ha, hb]
    · rw [if_neg ha]
      simp [isFatalH, h0, ha]
  · rw [if_neg h0]
    simp [isFatalH, h0]

theorem claim8_witness :
    resIsFatal (cli_parse_heap [['p'], ['a']] (fun _ => false)
        ⟨[], zeroArrH, zeroArrH, zeroArrH⟩) = true ↔
      ¬((false : Bool) = true ∧ (false : Bool) = true ∧ (false : Bool) = true) :=
  claim8_thm ['p'] [['a']] (fun _ => false) ⟨[], zeroArrH, zeroArrH, zeroArrH⟩ (by decide)

/-- Appending item sequences composes. -/
lemma ownedRunFrom_append (l1 l2 : List Tok) : ∀ (s : CliArrayH × Nat),
    ownedRunFrom s (l1 ++ l2) = (ownedRunFrom s l1).bind (fun s2 => ownedRunFrom s2 l2) := by
  induction l1 with
  | nil =>
    intro s
    simp [ownedRunFrom]
  | cons t ts ih =>
    intro s
    obtain ⟨a, k⟩ := s
    simp only [List.cons_append, ownedRunFrom]
    cases hm : cli_da_append_h allocAll a k t with
    | none => simp
    | some s2 => simp [ih s2]

/-- One append into an owned array with room left: the length advances, the
buffer gains the item, nothing is reallocated. -/
lemma append_h_no_grow (t : Tok) (l c : Nat) (d : List Tok) (r : Nat) (o : Bool) (k : Nat)
    (hd : d.length = l) (hl : l + 1 ≤ c) (hc : c < 65536) :
    cli_da_append_h allocAll ⟨l, c, d, r, o⟩ k t = some (⟨l + 1, c, d ++ [t], r, o⟩, k) := by
  have hlen : (l + 1) % 65536 = l + 1 := Nat.mod_eq_of_lt (by omega)
  simp only [cli_da_append_h, hlen]
  rw [if_neg (by omega)]
  simp only [bufWrite, Nat.add_sub_cancel]
  rw [if_pos (by omega), if_neg (by omega)]
  simp

/-- One append into a full owned array (without hitting the 16-bit wrap): the
capacity doubles, one reallocation happens, the buffer is preserved and
gains the item. -/
lemma append_h_grow (t : Tok) (c : Nat) (d : List Tok) (r : Nat) (o : Bool) (k : Nat)
    (hd : d.length = c) (h1 : 1 ≤ c) (h2 : c * 2 < 65536) :
    cli_da_append_h allocAll ⟨c, c, d, r, o⟩ k t =
      some (⟨c + 1, c * 2, d ++ [t], r + 1, o⟩, k + 1) := by
  have hlen : (c + 1) % 65536 = c + 1 := Nat.mod_eq_of_lt (by omega)
  have hcap : (c * 2) % 65536 = c * 2 := Nat.mod_eq_of_lt h2
  simp only [cli_da_append_h, hlen, hcap]
  rw [if_pos (by omega), if_pos (by simp [allocAll])]
  rw [List.take_of_length_le (by omega)]
  simp only [bufWrite, Nat.add_sub_cancel]
  rw [if_pos (by omega), if_neg (by omega)]
  simp

/-- Filling the free space of an owned array without growth (no 16-bit wrap
in range). -/
lemma ownedRun_fill (items : List Tok) : ∀ (l c : Nat) (d : List Tok) (r : Nat) (o : Bool)
    (k : Nat), d.length = l → l + items.length ≤ c → c < 65536 →
    ownedRunFrom (⟨l, c, d, r, o⟩, k) items = some (⟨l + items.length, c, d ++ items, r, o⟩, k) := by
  induction items with
  | nil =>
    intro l c d r o k hd hl hc
    simp [ownedRunFrom]
  | cons t ts ih =>
    intro l c d r o k hd hl hc
    simp only [ownedRunFrom]
    rw [append_h_no_grow t l c d r o k hd (by simp only [List.length_cons] at hl; omega) hc]
    simp only [Option.some_bind]
    rw [ih (l + 1) c (d ++ [t]) r o k (by simp [hd])
      (by simp only [List.length_cons] at hl ⊢; omega) hc]
    rw [← List.append_cons]
    have hlen2 : l + 1 + ts.length = l + (t :: ts).length := by
      simp only [List.length_cons]
      omega
    rw [hlen2]

/-- From a full owned array at `c` elements, appending `c` more items doubles
the capacity once and fills it again. -/
lemma ownedRun_fullToFull (x : Tok) (c : Nat) (d : List Tok) (r : Nat) (o : Bool) (k : Nat)
    (hd : d.length = c) (h1 : 1 ≤ c) (h2 : c * 2 < 65536) :
    ownedRunFrom (⟨c, c, d, r, o⟩, k) (List.replicate c x) =
      some (⟨c * 2, c * 2, d ++ List.replicate c x, r + 1, o⟩, k + 1) := by
  obtain ⟨c0, rfl⟩ : ∃ c0, c = c0 + 1 := ⟨c - 1, by omega⟩
  rw [show List.replicate (c0 + 1) x = x :: List.replicate c0 x from rfl]
  simp only [ownedRunFrom]
  rw [append_h_grow x (c0 + 1) d r o k hd h1 h2]
  simp only [Option.some_bind]
  rw [ownedRun_fill (List.replicate c0 x) (c0 + 1 + 1) ((c0 + 1) * 2) (d ++ [x]) (r + 1) o
    (k + 1) (by simp [hd]) (by simp only [List.length_replicate]; omega) h2]
  rw [← List.append_cons]
  have hlen2 : c0 + 1 + 1 + (List.replicate c0 x).length = (c0 + 1) * 2 := by
    simp only [List.length_replicate]
    omega
  rw [hlen2]

/-- From a full owned array at `c` elements, appending `c * 2 ^ j - c` more
items doubles the capacity exactly `j` times, arriving full at `c * 2 ^ j`,
provided the final capacity stays below 2 ^ 16. -/
lemma ownedRun_power (x : Tok) (j : Nat) : ∀ (c : Nat) (d : List Tok) (r : Nat) (o : Bool)
    (k : Nat), d.length = c → 1 ≤ c → c * 2 ^ j < 65536 →
    ownedRunFrom (⟨c, c, d, r, o⟩, k) (List.replicate (c * 2 ^ j - c) x) =
      some (⟨c * 2 ^ j, c * 2 ^ j, d ++ List.replicate (c * 2 ^ j - c) x, r + j, o⟩, k + j) := by
  induction j with
  | zero =>
    intro c d r o k hd h1 h2
    simp [ownedRunFrom]
  | succ j ih =>
    intro c d r o k hd h1 h2
    have hpow : c * 2 * 2 ^ j = c * 2 ^ (j + 1) := by ring
    have h2le : 2 ≤ 2 ^ (j + 1) := by
      calc 2 = 2 * 1 := by ring
        _ ≤ 2 * 2 ^ j := Nat.mul_le_mul_left _ Nat.one_le_two_pow
        _ = 2 ^ (j + 1) := by ring
    have hc2 : c * 2 < 65536 := by
      have hcc : c * 2 ≤ c * 2 ^ (j + 1) := Nat.mul_le_mul_left _ h2le
      omega
    have hle : c * 2 ≤ c * 2 * 2 ^ j := by
      calc c * 2 = c * 2 * 1 := by ring
        _ ≤ c * 2 * 2 ^ j := Nat.mul_le_mul_left _ Nat.one_le_two_pow
    have hsplit : c * 2 ^ (j + 1) - c = c + (c * 2 * 2 ^ j - c * 2) := by omega
    rw [hsplit, List.replicate_add, ownedRunFrom_append]
    rw [ownedRun_fullToFull x c d r o k hd h1 hc2]
    simp only [Option.some_bind]
    have hd2 : (d ++ List.replicate c x).length = c * 2 := by
      simp only [List.length_append, List.length_replicate, hd]
      omega
    have h12 : 1 ≤ c * 2 := by omega
    have hlt2 : c * 2 * 2 ^ j < 65536 := by omega
    rw [ih (c * 2) (d ++ List.replicate c x) (r + 1) o (k + 1) hd2 h12 hlt2]
    rw [hpow]
    have hr : r + 1 + j = r + (j + 1) := by omega
    have hk : k + 1 + j = k + (j + 1) := by omega
    rw [hr, hk, List.append_assoc, ← List.replicate_add]

/-- The append that carries the default-capacity growth chain past the 16-bit
capacity field: with 40960 items stored in a full owned array, the next
append computes capacity `40960 * 2 = 81920`, which wraps to `16384` in the
`unsigned short`; `CLI_REALLOC` therefore shrinks the buffer to 16384 cells
(losing 24576 stored elements) and the write of the new item goes to index
40960 of that 16384-cell buffer — out of bounds. -/
lemma append_h_wrap :
    cli_da_append_h allocAll ⟨40960, 40960, List.replicate 40960 ['x'], 13, false⟩ 13 ['x'] =
      some (⟨40961, 16384, List.replicate 16384 ['x'], 14, true⟩, 14) := by
  have hmod1 : (40960 + 1) % 65536 = 40961 := by norm_num
  have hmod2 : (40960 * 2) % 65536 = 16384 := by norm_num
  simp only [cli_da_append_h, hmod1, hmod2]
  rw [if_pos (by norm_num : (40961 : Nat) > 40960)]
  rw [if_pos (by rfl : allocAll 13 = true)]
  rw [List.take_replicate]
  rw [show (16384 ⊓ 40960 : Nat) = 16384 by norm_num]
  simp only [bufWrite]
  rw [if_neg (by norm_num : ¬(40961 - 1 < 16384))]
  norm_num

/-- Phase 1 of the default-capacity growth chain: the first five appends fill
the initial allocation without reallocating. -/
lemma ownedRun_phase1 :
    ownedRunFrom (cliDaInitH CLI_DEFAULT_ARR_CAP, 0) (List.replicate 5 ['x']) =
      some (⟨5, 5, List.replicate 5 ['x'], 0, false⟩, 0) := by
  have h := ownedRun_fill (List.replicate 5 (['x'] : Tok)) 0 5 [] 0 false 0 rfl
    (by simp) (by norm_num)
  simpa using h

/-- Phase 2: 40955 further appends double the capacity thirteen times,
reaching a full array of 40960 elements (capacities 5, 10, ..., 40960, all
still below 2 ^ 16). -/
lemma ownedRun_phase2 :
    ownedRunFrom ((⟨5, 5, List.replicate 5 ['x'], 0, false⟩ : CliArrayH), 0)
      (List.replicate 40955 ['x']) =
      some (⟨40960, 40960, List.replicate 40960 ['x'], 13, false⟩, 13) := by
  have h := ownedRun_power (['x'] : Tok) 13 5 (List.replicate 5 ['x']) 0 false 0
    (by simp) (by norm_num) (by norm_num)
  rw [← List.replicate_add] at h
  norm_num at h
  exact h

/-- Phases 2 and 3 combined: from the full 5-element array, 40955 appends
reach the full 40960-element array and the 40956th append wraps the 16-bit
capacity (see `append_h_wrap`). -/
lemma ownedRun_phase3 :
    ownedRunFrom ((⟨5, 5, List.replicate 5 ['x'], 0, false⟩ : CliArrayH), 0)
      (List.replicate 40955 ['x'] ++ List.replicate 1 ['x']) =
      some (⟨40961, 16384, List.replicate 16384 ['x'], 14, true⟩, 14) := by
  have h1 := ownedRunFrom_append (List.replicate 40955 (['x'] : Tok)) (List.replicate 1 ['x'])
    ((⟨5, 5, List.replicate 5 ['x'], 0, false⟩ : CliArrayH), 0)
  rw [ownedRun_phase2] at h1
  refine h1.trans ((Option.some_bind _ _).trans ?_)
  show ownedRunFrom _ _ = _
  rw [show List.replicate 1 (['x'] : Tok) = [['x']] from rfl]
  simp only [ownedRunFrom]
  rw [append_h_wrap]
  simp only [Option.some_bind]

/-- Claim C9 at the failing input: appending `N = 40961` items one by one to
an owned container of the default initial capacity `C0 = 5`.  The claimed
count `ceil(log2(N / C0)) = 14` is indeed the number of reallocations the
code performs, but on the 14th the doubled capacity `5 * 2 ^ 14 = 81920`
wraps in the `unsigned short` to `16384`: the final capacity is 16384 < N
instead of at least N, the reallocation truncates the buffer to 16384
elements instead of preserving all 40960 stored so far, and the final write
lands out of bounds (`oob = true`), which is undefined behaviour in the C
program. -/
theorem claim9_thm :
    ownedRunFrom (cliDaInitH CLI_DEFAULT_ARR_CAP, 0) (List.replicate 40961 ['x']) =
      some (⟨40961, 16384, List.replicate 16384 ['x'], 14, true⟩, 14) ∧
    (5 * 2 ^ 14) % 65536 = 16384 ∧ ¬(40961 ≤ 16384) ∧
    (List.replicate 16384 (['x'] : Tok)).length < 40960 := by
  refine ⟨?_, by norm_num, by norm_num, by simp only [List.length_replicate]; norm_num⟩
  have hsplit : (List.replicate 40961 (['x'] : Tok)) =
      List.replicate 5 ['x'] ++ (List.replicate 40955 ['x'] ++ List.replicate 1 ['x']) := by
    rw [← List.replicate_add, ← List.replicate_add]
  rw [hsplit]
  have h1 := ownedRunFrom_append (List.replicate 5 (['x'] : Tok))
    (List.replicate 40955 ['x'] ++ List.replicate 1 ['x']) (cliDaInitH CLI_DEFAULT_ARR_CAP, 0)
  rw [ownedRun_phase1] at h1
  exact h1.trans ((Option.some_bind _ _).trans ownedRun_phase3)

/-- Accounting invariant of the borrowed-configuration loop: the shared cursor
and the ghost append counter advance together, by exactly one slot per
stored token, at most one per consumed token; and, as long as the 16-bit
length fields cannot wrap, the cursor advance equals the growth of the total
stored length across the three lists. -/
lemma noheapLoop_inv (rest : List Tok) : ∀ (sc : Bool) (cli : CliN) (s : ArenaSt), ∃ k,
    (noheapLoop rest sc cli s).2.unused = s.unused + k ∧
    (noheapLoop rest sc cli s).2.stored = s.stored + k ∧
    k ≤ rest.length ∧
    (sumLenN cli + rest.length < 65536 →
      sumLenN (nResCli (noheapLoop rest sc cli s).1) = sumLenN cli + k) := by
  induction rest with
  | nil =>
    intro sc cli s
    exact ⟨0, by simp [noheapLoop], by simp [noheapLoop], by simp,
      fun _ => by simp [noheapLoop, nResCli]⟩
  | cons arg rest ih =>
    intro sc cli s
    simp only [noheapLoop]
    by_cases hd : cidx arg 0 = dashChar
    · rw [if_pos hd]
      by_cases hs : cidx arg 1 = dashChar ∧ cidx arg 2 = nulChar
      · rw [if_pos hs]
        by_cases ha : cli.args.length > 0
        · rw [if_pos ha]
          exact ⟨0, by simp, by simp, by simp, fun _ => by simp [nResCli]⟩
        · rw [if_neg ha]
          obtain ⟨k, h1, h2, h3, h4⟩ := ih true cli s
          exact ⟨k, h1, h2, by simp only [List.length_cons]; omega,
            fun hw => h4 (by simp only [List.length_cons] at hw; omega)⟩
      · rw [if_neg hs]
        by_cases hc : sc = true
        · rw [if_pos hc]
          simp only [cli_da_append_n]
          obtain ⟨k, h1, h2, h3, h4⟩ := ih sc
            { cli with cmd_options := ⟨(cli.cmd_options.length + 1) % 65536,
                match cli.cmd_options.start with
                | none => some s.unused
                | some i => some i⟩ }
            ⟨s.unused + 1, s.stack.set s.unused arg, s.stored + 1⟩
          refine ⟨k + 1, ?_, ?_, by simp only [List.length_cons]; omega, ?_⟩
          · rw [h1]
            show s.unused + 1 + k = s.unused + (k + 1)
            omega
          · rw [h2]
            show s.stored + 1 + k = s.stored + (k + 1)
            omega
          · intro hw
            simp only [List.length_cons] at hw
            have hcm : cli.cmd_options.length + 1 < 65536 := by
              simp only [sumLenN] at hw
              omega
            have hmod : (cli.cmd_options.length + 1) % 65536 = cli.cmd_options.length + 1 :=
              Nat.mod_eq_of_lt hcm
            rw [h4 (by simp only [sumLenN, hmod]; simp only [sumLenN] at hw; omega)]
            simp only [sumLenN, hmod]
            omega
        · rw [if_neg hc]
          simp only [cli_da_append_n]
          obtain ⟨k, h1, h2, h3, h4⟩ := ih sc
            { cli with program_options := ⟨(cli.program_options.length + 1) % 65536,
                match cli.program_options.start with
                | none => some s.unused
                | some i => some i⟩ }
            ⟨s.unused + 1, s.stack.set s.unused arg, s.stored + 1⟩
          refine ⟨k + 1, ?_, ?_, by simp only [List.length_cons]; omega, ?_⟩
          · rw [h1]
            show s.unused + 1 + k = s.unused + (k + 1)
            omega
          · rw [h2]
            show s.stored + 1 + k = s.stored + (k + 1)
            omega
          · intro hw
            simp only [List.length_cons] at hw
            have hcm : cli.program_options.length + 1 < 65536 := by
              simp only [sumLenN] at hw
              omega
            have hmod : (cli.program_options.length + 1) % 65536 =
                cli.program_options.length + 1 := Nat.mod_eq_of_lt hcm
            rw [h4 (by simp only [sumLenN, hmod]; simp only [sumLenN] at hw; omega)]
            simp only [sumLenN, hmod]
            omega
    · rw [if_neg hd]
      by_cases hco : cli.cmd_options.length > 0
      · rw [if_pos hco]
        exact ⟨0, by simp, by simp, by simp, fun _ => by simp [nResCli]⟩
      · rw [if_neg hco]
        simp only [cli_da_append_n]
        obtain ⟨k, h1, h2, h3, h4⟩ := ih true
          { cli with args := ⟨(cli.args.length + 1) % 65536,
              match cli.args.start with
              | none => some s.unused
              | some i => some i⟩ }
          ⟨s.unused + 1, s.stack.set s.unused arg, s.stored + 1⟩
        refine ⟨k + 1, ?_, ?_, by simp only [List.length_cons]; omega, ?_⟩
        · rw [h1]
          show s.unused + 1 + k = s.unused + (k + 1)
          omega
        · rw [h2]
          show s.stored + 1 + k = s.stored + (k + 1)
          omega
        · intro hw
          simp only [List.length_cons] at hw
          have hcm : cli.args.length + 1 < 65536 := by
            simp only [sumLenN] at hw
            omega
          have hmod : (cli.args.length + 1) % 65536 = cli.args.length + 1 :=
            Nat.mod_eq_of_lt hcm
          rw [h4 (by simp only [sumLenN, hmod]; simp only [sumLenN] at hw; omega)]
          simp only [sumLenN, hmod]
          omega

/-- Claim C10: after any borrowed-mode parse of a vector of length `argc`
(`rest` being the `argc - 1` tokens after the execution path), the cursor
position equals the number of append events (each accepted `--` consumed no
slot), that total never exceeds `argc - 1` — so a caller buffer of capacity
`argc - 1` is never overrun by the monotone cursor — and (whenever the
16-bit length fields cannot wrap, in particular for any realistic `argc`)
the slots consumed equal the total number of tokens stored across the three
lists. -/
theorem claim10_thm (e : Tok) (rest : List Tok) (stack : List Tok) (res : NRes) (st : ArenaSt)
    (h : cli_parse_noheap (e :: rest) stack = some (res, st)) :
    st.unused = st.stored ∧ st.stored ≤ rest.length ∧
      (rest.length < 65536 → st.unused = sumLenN (nResCli res)) := by
  simp only [cli_parse_noheap, Option.some.injEq] at h
  by_cases hr : rest.length > 0
  · rw [if_pos hr] at h
    obtain ⟨k, h1, h2, h3, h4⟩ :=
      noheapLoop_inv rest false ⟨e, initArrN, initArrN, initArrN⟩ ⟨0, stack, 0⟩
    have hfst : (noheapLoop rest false ⟨e, initArrN, initArrN, initArrN⟩ ⟨0, stack, 0⟩).1 =
        res := by rw [h]
    have hsnd : (noheapLoop rest false ⟨e, initArrN, initArrN, initArrN⟩ ⟨0, stack, 0⟩).2 =
        st := by rw [h]
    rw [hsnd] at h1 h2
    rw [hfst] at h4
    have h1b : st.unused = 0 + k := h1
    have h2b : st.stored = 0 + k := h2
    have hsum0 : sumLenN ⟨e, initArrN, initArrN, initArrN⟩ = 0 := rfl
    refine ⟨by omega, by omega, ?_⟩
    intro hw
    have h4b := h4 (by rw [hsum0]; omega)
    rw [h4b, hsum0]
    omega
  · rw [if_neg hr] at h
    have hst : st = ⟨0, stack, 0⟩ := by
      have hx := congrArg Prod.snd h
      simpa using hx.symm
    have hres : res = .ok ⟨e, initArrN, initArrN, initArrN⟩ := by
      have hx := congrArg Prod.fst h
      simpa using hx.symm
    rw [hst, hres]
    exact ⟨rfl, by simp, fun _ => rfl⟩

theorem claim10_witness :
    ((⟨2, [['-', 'a'], ['x']], 2⟩ : ArenaSt).unused = (⟨2, [['-', 'a'], ['x']], 2⟩ : ArenaSt).stored ∧
      (⟨2, [['-', 'a'], ['x']], 2⟩ : ArenaSt).stored ≤ ([['-', 'a'], ['x']] : List Tok).length ∧
      (([['-', 'a'], ['x']] : List Tok).length < 65536 →
        (⟨2, [['-', 'a'], ['x']], 2⟩ : ArenaSt).unused =
          sumLenN (nResCli (.ok ⟨['p'], ⟨1, some 1⟩, ⟨0, none⟩, ⟨1, some 0⟩⟩)))) :=
  claim10_thm ['p'] [['-', 'a'], ['x']] [[], []]
    (.ok ⟨['p'], ⟨1, some 1⟩, ⟨0, none⟩, ⟨1, some 0⟩⟩) ⟨2, [['-', 'a'], ['x']], 2⟩ (by decide)
